import Mathlib

/-!
# Vaccination-game round engine: formal model

Shallow embedding of the round-coordination and state-derivation core of the
vaccination-game web application (`src/example/app.py` and
`src/example/app_ALT.py`).  Machine floats of the source are modelled with `ℚ`
(all arithmetic stays on small dyadic/decimal values), SQL NULL for numeric
columns with the value `0` exactly where the source collapses the two with a
Python `or` guard, and the per-session database rows with explicit lists.
-/

namespace VaccGame

/-! ## CostModel (`TYPE_COST`, `a_cost_for`, `b_cost_adapt`) -/

/-- The `B` column list of `TYPE_COST` for a player type; an unknown ptype
falls back to type 1's table, matching `if ptype not in TYPE_COST: ptype = 1`. -/
def typeCostB (ptype : ℤ) : List ℚ :=
  if ptype = 1 then [4, 3, 2, 1, 0]
  else if ptype = 2 then [8, 6, 4, 2, 0]
  else if ptype = 3 then [4, 3, 2, 1, 0]
  else if ptype = 4 then [8, 6, 4, 2, 0]
  else if ptype = 5 then [24, 18, 12, 6, 0]
  else if ptype = 6 then [64, 48, 32, 16, 0]
  else [4, 3, 2, 1, 0]

/-- The `A` entry of `TYPE_COST`; `TYPE_COST.get(ptype, TYPE_COST[1])["A"]`. -/
def a_cost_for (ptype : ℤ) : ℚ :=
  if ptype = 1 then 4
  else if ptype = 2 then 4
  else if ptype = 3 then 8
  else if ptype = 4 then 8
  else if ptype = 5 then 32
  else if ptype = 6 then 32
  else 4

/-- `B_COLS = 5`. -/
def B_COLS : ℤ := 5

/-- `b_cost_adapt(ptype, others_A, N)` from the source: clamp `N` to `≥ 1`,
clamp `others_A` into `[0, N-1]`, return `b[0]` when `N ≤ 1`, otherwise bucket
`others_A / (N-1) * 5` with `col = int(x + 0.5)` (truncation; `x + 0.5 > 0`, so
this is `⌊x + 0.5⌋`) clamped into `[1, 5]`, and look up `b[col-1]`. -/
def b_cost_adapt (ptype others_A N : ℤ) : ℚ :=
  let b := typeCostB ptype
  let N' := max 1 N
  let oA := max 0 (min others_A (max 0 (N' - 1)))
  if N' ≤ 1 then b.headI
  else
    let frac : ℚ := (oA : ℚ) / ((N' : ℚ) - 1)
    let x := frac * (B_COLS : ℚ)
    let col := Int.floor (x + 1/2)
    let col' := max 1 (min B_COLS col)
    b.getD (col' - 1).toNat 0

/-- Round-half-up of a rational: `⌊x + 1/2⌋`.  This is what the source's
`int(x + 0.5)` computes for the nonnegative `x` arising in `b_cost_adapt`. -/
def roundHalfUp (x : ℚ) : ℤ := Int.floor (x + 1/2)

/-- Spec-side rendering of the `costOfB` algorithm, written from the claim's
words: clamp `othersA` to `[0, N-1]`; if `N ≤ 1` return the first B-table
entry; else `frac = othersA/(N-1)`, `x = frac*5`,
`bucket = clamp(roundHalfUp x, 1, 5)` (the spec's "round half up, then clamp"
rule, realised as `⌊x + 0.5⌋` — fixed by the spec's own worked example
`x = 3.0 → bucket 3`), and return the table entry at `bucket - 1`. -/
def costOfB_spec (ptype othersA N : ℤ) : ℚ :=
  let table := typeCostB ptype
  let clamped := max 0 (min othersA (N - 1))
  if N ≤ 1 then table.headI
  else
    let frac : ℚ := (clamped : ℚ) / ((N : ℚ) - 1)
    let x := frac * 5
    let bucket := max 1 (min 5 (roundHalfUp x))
    table.getD (bucket - 1).toNat 0

/-! ## Data model

One session's database rows.  `current_round`, `group_size`, `rounds` are
nonnegative integers; money columns are `ℚ`.  A numeric column that the source
reads through a Python `x or default` guard collapses SQL NULL and `0`; such
columns are modelled as the plain number with `0` standing for NULL. -/

/-- A decision's `choice` column (validated to `A`/`B` before insert). -/
inductive Choice
  | A
  | B
deriving DecidableEq, Repr

/-- A session's `status` column. -/
inductive SessionStatus
  | lobby
  | playing
  | done
deriving DecidableEq, Repr

/-- A row of `participants` (columns touched by the modelled operations). -/
structure Participant where
  pid : ℕ
  joined : Bool
  currentRound : ℕ
  balance : ℚ
  readyForNext : Bool
  ptype : ℤ
deriving DecidableEq, Repr

/-- A row of `decisions`.  Finalisation bookkeeping columns that the modelled
logic never reads back (`a_cost`, `b_cost`, `base_payout`, `b_cost_round`,
`reveal`, `created_at`) are omitted. -/
structure Decision where
  pid : ℕ
  roundNumber : ℕ
  choice : Choice
  totalCost : Option ℚ
  payout : Option ℚ
  othersA : Option ℤ
deriving DecidableEq, Repr

/-- A row of `round_phases`: `(round_number, decision_ends_at, watch_ends_at)`,
timestamps as rational seconds. -/
structure RoundPhase where
  roundNumber : ℕ
  decisionEndsAt : ℚ
  watchEndsAt : ℚ
deriving DecidableEq, Repr

/-- One session's persisted state: the session row plus its `participants`,
`decisions` and `round_phases` rows.  `watchTime`/`revealWindow` are the
app_ALT session columns feeding the watch-window length (`0` = NULL). -/
structure GState where
  groupSize : ℕ
  rounds : ℕ
  startingBalance : ℚ
  status : SessionStatus
  archived : Bool
  watchTime : ℤ
  revealWindow : ℤ
  participants : List Participant
  decisions : List Decision
  roundPhases : List RoundPhase
deriving DecidableEq, Repr

/-! ## SessionRegistry accessors (the SQL counting/lookup queries) -/

/-- `SELECT * FROM participants WHERE id=%s` (primary-key lookup). -/
def findParticipant (st : GState) (pid : ℕ) : Option Participant :=
  st.participants.find? (fun p => p.pid = pid)

/-- `SELECT 1 FROM decisions WHERE participant_id=%s AND round_number=%s`. -/
def findDecision (st : GState) (pid : ℕ) (r : ℕ) : Option Decision :=
  st.decisions.find? (fun d => d.pid = pid && d.roundNumber = r)

/-- `SELECT COUNT(*) FROM participants WHERE session_id=%s AND joined=1`. -/
def joinedCount (st : GState) : ℕ :=
  (st.participants.filter (fun p => p.joined)).length

/-- `SELECT COUNT(*) FROM participants WHERE session_id=%s AND ready_for_next=1`. -/
def readyCount (st : GState) : ℕ :=
  (st.participants.filter (fun p => p.readyForNext)).length

/-- `SELECT COUNT(*) FROM decisions WHERE session_id=%s AND round_number=%s`. -/
def decidedCount (st : GState) (r : ℕ) : ℕ :=
  (st.decisions.filter (fun d => d.roundNumber = r)).length

/-- `... AND total_cost IS NULL` count for a round. -/
def missingCount (st : GState) (r : ℕ) : ℕ :=
  (st.decisions.filter (fun d => d.roundNumber = r && d.totalCost = none)).length

/-- `total_A = sum(1 for row in rows if row["choice"] == "A")`, where `rows` is
the round's decisions joined with `participants` (a decision whose participant
row is missing drops out of the inner join). -/
def totalAJoined (st : GState) (r : ℕ) : ℕ :=
  (st.decisions.filter
    (fun d => d.roundNumber = r && d.choice = Choice.A && (findParticipant st d.pid).isSome)).length

/-- `SELECT ... FROM round_phases WHERE session_id=%s AND round_number=%s`. -/
def findPhase (st : GState) (r : ℕ) : Option RoundPhase :=
  st.roundPhases.find? (fun ph => ph.roundNumber = r)

/-- Python `row["ptype"] or 1`: NULL (modelled `0`) falls back to type 1. -/
def effPtype (ptype : ℤ) : ℤ :=
  if ptype = 0 then 1 else ptype

/-- Python `float(s["starting_balance"] or 500)`: NULL or `0` becomes `500`. -/
def effBasis (sb : ℚ) : ℚ :=
  if sb = 0 then 500 else sb

/-- Python `p["current_round"] or 1` (app.py guards a NULL/0 round). -/
def effRound (r : ℕ) : ℕ :=
  if r = 0 then 1 else r

/-! ## RoundCoordinator: finalisation -/

/-- The cost and `others_A` a finalisation computes for one decision:
`choice=A → cost = a_cost_for(ptype), others_A = max(0, total_A - 1)`;
`choice=B → others_A = total_A, cost = b_cost_adapt(ptype, others_A, N)`. -/
def decisionCost (choice : Choice) (ptype totalA N : ℤ) : ℚ × ℤ :=
  match choice with
  | Choice.A => (a_cost_for ptype, max 0 (totalA - 1))
  | Choice.B => (b_cost_adapt ptype totalA N, totalA)

/-- The decision row after finalisation's
`UPDATE decisions SET total_cost=…, payout=…, others_A=… WHERE id=… AND total_cost IS NULL`,
with `payout = max(M - cost, 0)`. -/
def finalizeDecisionRow (st : GState) (r : ℕ) (d : Decision) : Decision :=
  if d.roundNumber = r then
    match findParticipant st d.pid with
    | none => d
    | some p =>
      let co := decisionCost d.choice (effPtype p.ptype) (totalAJoined st r) st.groupSize
      if d.totalCost = none then
        { d with
          totalCost := some co.1
          payout := some (max (effBasis st.startingBalance - co.1) 0)
          othersA := some co.2 }
      else d
  else d

/-- The payout finalisation writes onto the participant owning a round-`r`
decision (`UPDATE participants SET balance=%s WHERE id=%s`, unconditional). -/
def finalizePayoutFor (st : GState) (r : ℕ) (p : Participant) (d : Decision) : ℚ :=
  max (effBasis st.startingBalance -
    (decisionCost d.choice (effPtype p.ptype) (totalAJoined st r) st.groupSize).1) 0

/-- The balance write of finalisation for one participant row: participants
owning a round-`r` decision get their balance set to the recomputed payout. -/
def payParticipant (st : GState) (r : ℕ) (p : Participant) : Participant :=
  match findDecision st p.pid r with
  | none => p
  | some d => { p with balance := finalizePayoutFor st r p d }

/-- The shared write phase of both finalisation variants: update every round-`r`
decision row (joined with its participant) and set each such participant's
balance to its freshly computed payout. -/
def finalizeWrites (st : GState) (r : ℕ) : GState :=
  { st with
    decisions := st.decisions.map (finalizeDecisionRow st r)
    participants := st.participants.map (payParticipant st r) }

/-- `finalize_round(session_id, round_number)` from app.py: return unchanged
when fewer than `group_size` decisions are in, or when no round-`r` decision
still has `total_cost IS NULL`; otherwise run the write phase (app.py creates
no `round_phases` row and does not advance rounds). -/
def finalize_round (st : GState) (r : ℕ) : GState :=
  if decidedCount st r < st.groupSize then st
  else if missingCount st r = 0 then st
  else finalizeWrites st r

/-- `int(s["watch_time"] or s["reveal_window"] or 5)` (app_ALT watch window). -/
def watchWindowSec (st : GState) : ℤ :=
  if st.watchTime ≠ 0 then st.watchTime
  else if st.revealWindow ≠ 0 then st.revealWindow
  else 5

/-- `_finalize_round_atomic(con, sid, r, s)` from app_ALT at time `now`: the
same gate and write phase as app.py's `finalize_round`, then
`UPDATE participants SET current_round = current_round + 1, ready_for_next = 0
WHERE current_round = r`, then `REPLACE INTO round_phases` with
`watch_ends_at = now + watchWindowSec`. -/
def finalize_round_atomic (st : GState) (r : ℕ) (now : ℚ) : GState :=
  if decidedCount st r < st.groupSize then st
  else if missingCount st r = 0 then st
  else
    let st1 := finalizeWrites st r
    let st2 : GState := { st1 with
      participants := st1.participants.map (fun p =>
        if p.currentRound = r then { p with currentRound := p.currentRound + 1, readyForNext := false }
        else p) }
    { st2 with
      roundPhases :=
        (st2.roundPhases.filter (fun ph => ph.roundNumber ≠ r)) ++
          [⟨r, now, now + (watchWindowSec st : ℚ)⟩] }

/-! ## RoundCoordinator: decision submission -/

/-- `/choose` from app.py: resolve the caller's row, take `r = current_round or 1`,
return success without touching anything when a `(participant, r)` decision
already exists, otherwise insert the new decision row.  The `Bool` is the
"ok" response. -/
def choose (st : GState) (pid : ℕ) (c : Choice) : GState × Bool :=
  match findParticipant st pid with
  | none => (st, false)
  | some p =>
    let r := effRound p.currentRound
    if (findDecision st pid r).isSome then (st, true)
    else ({ st with decisions := st.decisions ++ [⟨pid, r, c, none, none, none⟩] }, true)

/-- `/choose` from app_ALT: identical shape, `r = p["current_round"]` without
the `or 1` guard. -/
def choose_alt (st : GState) (pid : ℕ) (c : Choice) : GState × Bool :=
  match findParticipant st pid with
  | none => (st, false)
  | some p =>
    let r := p.currentRound
    if (findDecision st pid r).isSome then (st, true)
    else ({ st with decisions := st.decisions ++ [⟨pid, r, c, none, none, none⟩] }, true)

/-! ## RoundCoordinator: ready confirmation and round advance (app.py) -/

/-- `UPDATE participants SET ready_for_next = 1 WHERE id = :pid`. -/
def setReady (st : GState) (pid : ℕ) : GState :=
  { st with
    participants := st.participants.map (fun q =>
      if q.pid = pid then { q with readyForNext := true } else q) }

/-- `/confirm_ready` from app.py: remember the caller's `current_round or 1`,
set the caller's ready flag, then — if the freshly counted ready quorum is
reached — either mark the session `done` and clear all ready flags (caller's
round at or past the final round) or advance every participant's
`current_round` by one and clear all ready flags. -/
def confirm_ready (st : GState) (pid : ℕ) : GState :=
  match findParticipant st pid with
  | none => st
  | some p =>
    let cr := effRound p.currentRound
    let st1 := setReady st pid
    if st1.groupSize ≤ readyCount st1 then
      if st1.rounds ≤ cr then
        { st1 with
          status := SessionStatus.done
          participants := st1.participants.map (fun q => { q with readyForNext := false }) }
      else
        { st1 with
          participants := st1.participants.map (fun q =>
            { q with currentRound := q.currentRound + 1, readyForNext := false }) }
    else st1

/-- The group-fill transition inside app.py's `/lobby` view: when every seat is
taken while the session is still a lobby, flip the status to `playing` and set
every participant's `current_round` to 1. -/
def lobby_start (st : GState) : GState :=
  if st.groupSize ≤ joinedCount st ∧ st.status = SessionStatus.lobby then
    { st with
      status := SessionStatus.playing
      participants := st.participants.map (fun q => { q with currentRound := 1 }) }
  else st

/-! ## The app.py operation alphabet and reachability -/

/-- The state-mutating participant-facing operations of the app.py variant. -/
inductive AppOp
  | chooseOp (pid : ℕ) (c : Choice)
  | confirmReadyOp (pid : ℕ)
  | lobbyStartOp
  | finalizeOp (r : ℕ)
deriving DecidableEq, Repr

/-- One app.py operation applied to a session state. -/
def appStep (st : GState) : AppOp → GState
  | AppOp.chooseOp pid c => (choose st pid c).1
  | AppOp.confirmReadyOp pid => confirm_ready st pid
  | AppOp.lobbyStartOp => lobby_start st
  | AppOp.finalizeOp r => finalize_round st r

/-- States reachable from `init` by any interleaving of app.py operations. -/
inductive Reachable (init : GState) : GState → Prop
  | refl : Reachable init init
  | step {st : GState} (op : AppOp) : Reachable init st → Reachable init (appStep st op)

/-! ## ParticipantStateMachine (app_ALT `current_state`) -/

/-- The derived participant phase. -/
inductive PState
  | lobbyP
  | roundP
  | waitP
  | revealP
  | doneP
deriving DecidableEq, Repr

/-- `current_state(con, p, s)` from app_ALT, for an existing participant `p` of
the session: the seven-rule derivation evaluated top to bottom. -/
def current_state (st : GState) (p : Participant) : PState :=
  if st.archived then PState.doneP
  else if joinedCount st < st.groupSize then PState.lobbyP
  else
    let r := p.currentRound
    if st.rounds < r then
      if st.groupSize ≤ readyCount st then PState.doneP else PState.revealP
    else if 1 < r ∧ readyCount st < st.groupSize then PState.revealP
    else if (findDecision st p.pid r).isNone then PState.roundP
    else if (findPhase st r).isNone then PState.waitP
    else PState.revealP

/-- Spec-side rendering of the state-derivation rules, written from the claim's
words: with `r = p.currentRound`, (1) archived → Done; (2) fewer joined than
groupSize → Lobby; (3) `r > s.rounds` → Done when the ready count reached
groupSize, else Reveal; (4) `r > 1` and ready count below groupSize → Reveal;
(5) no Decision for `(p, r)` → Round; (6) no RoundPhase row for `(s, r)` →
Wait; (7) otherwise Reveal. -/
def current_state_spec (st : GState) (p : Participant) : PState :=
  let r := p.currentRound
  if st.archived then PState.doneP
  else if joinedCount st < st.groupSize then PState.lobbyP
  else if st.rounds < r ∧ st.groupSize ≤ readyCount st then PState.doneP
  else if st.rounds < r then PState.revealP
  else if 1 < r ∧ readyCount st < st.groupSize then PState.revealP
  else if (findDecision st p.pid r).isNone then PState.roundP
  else if (findPhase st r).isNone then PState.waitP
  else PState.revealP

/-! ## PresenceGuard (app.py duplicate-login check inside `/join`) -/

/-- One `active_participants` entry: `{browser_token, last_activity}`. -/
structure PresenceEntry where
  token : String
  lastActivity : ℚ
deriving DecidableEq, Repr

/-- The duplicate-login check-and-register of app.py's `/join` for one
participant's entry: reject when an entry exists whose token differs and whose
age is under 60 seconds, otherwise accept and (re)write the entry with the new
token and timestamp.  Returns `(allowed, new entry)`. -/
def registerOrReject (entry : Option PresenceEntry) (token : String) (now : ℚ) :
    Bool × Option PresenceEntry :=
  match entry with
  | some e =>
    if now - e.lastActivity < 60 ∧ e.token ≠ token then (false, some e)
    else (true, some ⟨token, now⟩)
  | none => (true, some ⟨token, now⟩)

/-- Spec-side success condition for `registerOrReject`, written from the
claim's words: the join succeeds iff no entry exists, or the stored entry's
token equals the new one, or the stored entry's age exceeds 60 seconds. -/
def registerClaimAllowed (entry : Option PresenceEntry) (token : String) (now : ℚ) : Prop :=
  entry = none ∨ ∃ e, entry = some e ∧ (e.token = token ∨ 60 < now - e.lastActivity)

/-! ## Balance bookkeeping used by the accumulation claim -/

/-- The sum of a participant's recorded payouts over all finalised decisions. -/
def payoutSum (st : GState) (pid : ℕ) : ℚ :=
  ((st.decisions.filter (fun d => d.pid = pid)).map (fun d => d.payout.getD 0)).sum

/-! ## Well-formedness conditions mirroring database constraints -/

/-- Every round-`r` decision row belongs to an existing participant row (the
`participant_id` foreign key; the `choose` insert guarantees it). -/
def DecisionsOwned (st : GState) (r : ℕ) : Prop :=
  ∀ d ∈ st.decisions, d.roundNumber = r → (findParticipant st d.pid).isSome = true

/-- The `UNIQUE KEY ux_participant_round (participant_id, round_number)`
constraint: no two decision rows share participant and round. -/
def UniqueDecisions (st : GState) : Prop :=
  ∀ d1 ∈ st.decisions, ∀ d2 ∈ st.decisions,
    d1.pid = d2.pid → d1.roundNumber = d2.roundNumber → d1 = d2

/-- All round-`r` decisions still uncosted (the state `tryFinalize` normally
fires from: the round was never finalised before). -/
def RoundUncosted (st : GState) (r : ℕ) : Prop :=
  ∀ d ∈ st.decisions, d.roundNumber = r → d.totalCost = none

/-- The `participants.id` primary key: no two participant rows share an id. -/
def UniqueParticipants (st : GState) : Prop :=
  ∀ p1 ∈ st.participants, ∀ p2 ∈ st.participants, p1.pid = p2.pid → p1 = p2

/-! ## Concrete example states (used by witnesses and counterexamples) -/

/-- Example participant 1: joined, round 1, ptype 1, balance 500. -/
def exP1 : Participant := ⟨1, true, 1, 500, false, 1⟩

/-- Example participant 2: joined, round 1, ptype 1, balance 500. -/
def exP2 : Participant := ⟨2, true, 1, 500, false, 1⟩

/-- A playing session of two, two rounds, starting balance 500, no decisions. -/
def exStart : GState :=
  ⟨2, 2, 500, SessionStatus.playing, false, 0, 0, [exP1, exP2], [], []⟩

/-- `exStart` after both participants chose A in round 1. -/
def exDecided : GState :=
  (choose_alt (choose_alt exStart 1 Choice.A).1 2 Choice.A).1

/-- `exDecided` after the app_ALT finalisation of round 1 at time 0 (both
participants advanced to round 2 with balance 496). -/
def exRound2 : GState := finalize_round_atomic exDecided 1 0

/-- `exRound2` after both participants chose A again in round 2. -/
def exDecided2 : GState :=
  (choose_alt (choose_alt exRound2 1 Choice.A).1 2 Choice.A).1

/-- `exDecided2` after the app_ALT finalisation of round 2 at time 10. -/
def exFinal : GState := finalize_round_atomic exDecided2 2 10

/-- A one-seat session whose `starting_balance` column is 0, with one A
decision in round 1 (exercises the `starting_balance or 500` fallback). -/
def exZeroBasis : GState :=
  ⟨1, 1, 0, SessionStatus.playing, false, 0, 0,
    [⟨1, true, 1, 0, false, 1⟩], [⟨1, 1, Choice.A, none, none, none⟩], []⟩

/-- `exZeroBasis` after app.py's `finalize_round` of round 1. -/
def exZeroFinal : GState := finalize_round exZeroBasis 1

/-- A participant row of `exAppDone`. -/
def exAppP1 : Participant := ⟨1, true, 1, 496, false, 1⟩

/-- A one-round, two-seat app.py session in the playing phase with round 1
already finalised (decisions costed, balances paid). -/
def exAppDone : GState :=
  ⟨2, 1, 500, SessionStatus.playing, false, 0, 0,
    [⟨1, true, 1, 496, false, 1⟩, ⟨2, true, 1, 496, false, 1⟩],
    [⟨1, 1, Choice.A, some 4, some 496, some 1⟩, ⟨2, 1, Choice.A, some 4, some 496, some 1⟩],
    []⟩


/-- All participants of the session share one current round `c` with
`1 ≤ c ≤ rounds` (maintained by the app.py operations, which only ever write
`current_round` session-wide). -/
def SyncRound (st : GState) : Prop :=
  ∃ c, 1 ≤ c ∧ c ≤ st.rounds ∧ ∀ p ∈ st.participants, p.currentRound = c

/-- Like `exAppDone` but rounds exhausted and participant 2 already ready. -/
def exAppReady : GState :=
  ⟨2, 1, 500, SessionStatus.playing, false, 0, 0,
    [⟨1, true, 1, 496, false, 1⟩, ⟨2, true, 1, 496, true, 1⟩],
    [⟨1, 1, Choice.A, some 4, some 496, some 1⟩, ⟨2, 1, Choice.A, some 4, some 496, some 1⟩],
    []⟩

/-! # Theorems -/

/-! ## CostModel -/

theorem typeCostB_entry_zero (ptype : ℤ) :
    (typeCostB ptype)[(0:ℕ)]?.getD 0 = (typeCostB ptype).headI := by
  unfold typeCostB
  split_ifs <;> rfl

theorem typeCostB_entry_four (ptype : ℤ) :
    (typeCostB ptype)[(4:ℕ)]?.getD 0 = 0 := by
  unfold typeCostB
  split_ifs <;> rfl

/-- C1 (confirmed): for every ptype, every integer `othersA` and every integer
`N`, the source's `b_cost_adapt` computes exactly the claimed `costOfB`
algorithm: clamp `othersA` to `[0, N-1]`; if `N ≤ 1` return the first entry of
the ptype's B table; otherwise `frac = othersA/(N-1)`, `x = frac*5`,
`bucket = clamp(roundHalfUp x, 1, 5)` with round-half-up realised as
`⌊x + 0.5⌋` (the reading fixed by the spec's own worked example), and return
the B-table entry at index `bucket - 1`. -/
theorem b_cost_adapt_eq_costOfB_spec (ptype othersA N : ℤ) :
    b_cost_adapt ptype othersA N = costOfB_spec ptype othersA N := by
  by_cases h : N ≤ 1
  · simp only [b_cost_adapt, costOfB_spec, max_eq_left h, if_pos h]
    rw [if_pos (le_refl (1:ℤ))]
  · have h2 : (1:ℤ) ⊔ N = N := max_eq_right (by omega)
    have h3 : (0:ℤ) ⊔ (N - 1) = N - 1 := max_eq_right (by omega)
    simp only [b_cost_adapt, costOfB_spec, roundHalfUp, B_COLS, h2, h3, if_neg h]
    push_cast
    ring_nf

/-- C4 counterexample: the claim quantifies over every `N`, but at `N = 1`
(so `othersA = N - 1 = 0`) `b_cost_adapt` returns the first B-table entry
(4 for ptype 1), not 0. -/
theorem costOfB_last_bucket_fails_at_one : ¬ (b_cost_adapt 1 (1 - 1) 1 = 0) := by
  norm_num [b_cost_adapt, typeCostB]

/-- C4 (amended): for all ptype and all `N`, `costOfB(ptype, 0, N)` equals the
first (highest) entry of the ptype's B table; and for all `N ≥ 2` (at least
one peer exists), `costOfB(ptype, N-1, N)` equals 0. -/
theorem costOfB_boundary_buckets :
    (∀ ptype N : ℤ, b_cost_adapt ptype 0 N = (typeCostB ptype).headI) ∧
    (∀ ptype N : ℤ, 2 ≤ N → b_cost_adapt ptype (N - 1) N = 0) := by
  constructor
  · intro ptype N
    by_cases h : N ≤ 1
    · simp only [b_cost_adapt, max_eq_left h]
      rw [if_pos (le_refl (1:ℤ))]
    · have h2 : (1:ℤ) ⊔ N = N := max_eq_right (by omega)
      have h3 : (0:ℤ) ⊔ (N - 1) = N - 1 := max_eq_right (by omega)
      have h4 : (0:ℤ) ⊓ (N - 1) = 0 := min_eq_left (by omega)
      simp only [b_cost_adapt, B_COLS, h2, h3, h4, if_neg h]
      norm_num [typeCostB_entry_zero]
  · intro ptype N hN
    have h : ¬ (N ≤ 1) := by omega
    have h2 : (1:ℤ) ⊔ N = N := max_eq_right (by omega)
    have h3 : (0:ℤ) ⊔ (N - 1) = N - 1 := max_eq_right (by omega)
    have h4 : (N - 1 : ℤ) ⊓ (N - 1) = N - 1 := min_self _
    have h5 : ((N:ℚ) - 1) ≠ 0 := by
      have : (2:ℚ) ≤ (N:ℚ) := by exact_mod_cast hN
      linarith
    simp only [b_cost_adapt, B_COLS, h2, h3, h4, if_neg h]
    push_cast
    rw [div_self h5]
    norm_num
    have h6 : (4:ℤ).toNat = 4 := rfl
    rw [h6]
    exact typeCostB_entry_four ptype

/-- C4 witness: both boundary facts at ptype 1, `N = 6`. -/
theorem costOfB_boundary_buckets_witness :
    b_cost_adapt 1 0 6 = (typeCostB 1).headI ∧ b_cost_adapt 1 (6 - 1) 6 = 0 :=
  ⟨costOfB_boundary_buckets.1 1 6, costOfB_boundary_buckets.2 1 6 (by norm_num)⟩

/-! ## ParticipantStateMachine -/

/-- C6 (confirmed): app_ALT's `current_state` evaluates exactly the claimed
seven rules in order: archived → Done; under-filled lobby → Lobby;
`r > rounds` → Done when the ready quorum is reached else Reveal; `r > 1`
without the ready quorum → Reveal; no Decision for `(p, r)` → Round; no
RoundPhase row for `(s, r)` → Wait; otherwise Reveal. -/
theorem current_state_eq_spec (st : GState) (p : Participant) :
    current_state st p = current_state_spec st p := by
  unfold current_state current_state_spec
  dsimp only
  split_ifs <;> first | rfl | omega

/-! ## RoundCoordinator: decision submission -/

/-- C8 (confirmed): in both variants, when a Decision row already exists for
the caller's `(participantId, round)`, `choose` returns success and leaves the
whole state unchanged — no second row, no change to the recorded choice. -/
theorem submitDecision_idempotent :
    (∀ st pid c p, findParticipant st pid = some p →
        (findDecision st pid (effRound p.currentRound)).isSome = true →
        choose st pid c = (st, true)) ∧
    (∀ st pid c p, findParticipant st pid = some p →
        (findDecision st pid p.currentRound).isSome = true →
        choose_alt st pid c = (st, true)) := by
  constructor
  · intro st pid c p hp hd
    simp [choose, hp, hd]
  · intro st pid c p hp hd
    simp [choose_alt, hp, hd]

/-- C8 witness: resubmitting choice `B` for participant 1 of `exAppDone`
(whose round-1 decision `A` is already recorded) is a no-op success in both
variants. -/
theorem submitDecision_idempotent_witness :
    choose exAppDone 1 Choice.B = (exAppDone, true) ∧
    choose_alt exAppDone 1 Choice.B = (exAppDone, true) :=
  ⟨submitDecision_idempotent.1 exAppDone 1 Choice.B exAppP1 rfl rfl,
   submitDecision_idempotent.2 exAppDone 1 Choice.B exAppP1 rfl rfl⟩

/-! ## PresenceGuard -/

/-- C9 counterexample: at an age of exactly 60 seconds (entry written at time
0, second join at time 60) with a different token, the code allows the join
(`time_since_activity < 60` fails), while the claim's condition — no entry, or
matching token, or age strictly exceeding 60 — does not hold. -/
theorem presence_window_boundary_counterexample :
    (registerOrReject (some ⟨"T1", 0⟩) "T2" 60).1 = true ∧
    ¬ registerClaimAllowed (some ⟨"T1", 0⟩) "T2" 60 := by
  constructor
  · norm_num [registerOrReject]
  · intro hc
    rcases hc with h | ⟨e, he, h2⟩
    · exact Option.noConfusion h
    · rw [Option.some.injEq] at he
      subst he
      rcases h2 with h3 | h4
      · exact absurd h3 (by decide)
      · norm_num at h4

/-- C9 (amended): the duplicate-login check succeeds if and only if no entry
exists, or the stored entry's token equals the new one, or the stored entry's
age is at least 60 seconds (`≥ 60`, not strictly greater); on success the
entry is (re)written with the new token and timestamp, otherwise it is left
unchanged. -/
theorem presence_guard_characterization (entry : Option PresenceEntry) (token : String) (now : ℚ) :
    ((registerOrReject entry token now).1 = true ↔
      (entry = none ∨ ∃ e, entry = some e ∧ (e.token = token ∨ 60 ≤ now - e.lastActivity))) ∧
    (registerOrReject entry token now).2 =
      (if (registerOrReject entry token now).1 = true then some ⟨token, now⟩ else entry) := by
  cases entry with
  | none => simp [registerOrReject]
  | some e =>
    by_cases hlt : now - e.lastActivity < 60
    · by_cases htk : e.token = token
      · simp [registerOrReject, hlt, htk]
      · have hfalse : ¬ (60 ≤ now - e.lastActivity) := not_le.2 hlt
        simp [registerOrReject, hlt, htk, hfalse]
    · have hle : 60 ≤ now - e.lastActivity := not_lt.1 hlt
      simp [registerOrReject, hlt, hle]

/-! ## RoundCoordinator: finalisation structure lemmas -/

theorem finalizeDecisionRow_pid (st : GState) (r : ℕ) (d : Decision) :
    (finalizeDecisionRow st r d).pid = d.pid := by
  unfold finalizeDecisionRow
  split <;> (try split) <;> (try split) <;> rfl

theorem finalizeDecisionRow_roundNumber (st : GState) (r : ℕ) (d : Decision) :
    (finalizeDecisionRow st r d).roundNumber = d.roundNumber := by
  unfold finalizeDecisionRow
  split <;> (try split) <;> (try split) <;> rfl

theorem finalizeDecisionRow_choice (st : GState) (r : ℕ) (d : Decision) :
    (finalizeDecisionRow st r d).choice = d.choice := by
  unfold finalizeDecisionRow
  split <;> (try split) <;> (try split) <;> rfl

theorem decidedCount_finalizeWrites (st : GState) (r q : ℕ) :
    decidedCount (finalizeWrites st r) q = decidedCount st q := by
  unfold decidedCount finalizeWrites
  dsimp only
  rw [List.filter_map, List.length_map]
  congr 1
  apply List.filter_congr
  intro d hd
  simp [Function.comp, finalizeDecisionRow_roundNumber]

theorem finalizeDecisionRow_totalCost (st : GState) (r : ℕ) (d : Decision)
    (h1 : d.roundNumber = r) (h2 : (findParticipant st d.pid).isSome = true) :
    (finalizeDecisionRow st r d).totalCost ≠ none := by
  unfold finalizeDecisionRow
  rw [if_pos h1]
  obtain ⟨p, hp⟩ := Option.isSome_iff_exists.1 h2
  rw [hp]
  dsimp only
  by_cases h3 : d.totalCost = none
  · rw [if_pos h3]
    simp
  · rw [if_neg h3]
    exact h3

theorem missingCount_finalizeWrites (st : GState) (r : ℕ) (h : DecisionsOwned st r) :
    missingCount (finalizeWrites st r) r = 0 := by
  unfold missingCount finalizeWrites
  dsimp only
  rw [List.filter_map, List.length_map, List.length_eq_zero, List.filter_eq_nil_iff]
  intro d hd
  simp only [Function.comp]
  by_cases h1 : d.roundNumber = r
  · have h2 := h d hd h1
    have h3 := finalizeDecisionRow_totalCost st r d h1 h2
    simp [h3]
  · simp [finalizeDecisionRow_roundNumber, h1]

theorem finalize_round_stable (st : GState) (r : ℕ) (h : missingCount st r = 0) :
    finalize_round st r = st := by
  unfold finalize_round
  split_ifs with hA
  · rfl
  · rfl

theorem finalize_round_atomic_stable (st : GState) (r : ℕ) (now : ℚ)
    (h : missingCount st r = 0) : finalize_round_atomic st r now = st := by
  unfold finalize_round_atomic
  split_ifs with hA
  · rfl
  · rfl

theorem finalize_round_gated (st : GState) (r : ℕ)
    (h1 : ¬ decidedCount st r < st.groupSize) (h2 : ¬ missingCount st r = 0) :
    finalize_round st r = finalizeWrites st r := by
  unfold finalize_round
  rw [if_neg h1, if_neg h2]

theorem finalize_round_atomic_decisions (st : GState) (r : ℕ) (now : ℚ) :
    (finalize_round_atomic st r now).decisions = (finalize_round st r).decisions := by
  unfold finalize_round_atomic finalize_round
  split
  · rfl
  · split
    · rfl
    · rfl

theorem missingCount_congr {st1 st2 : GState} (r : ℕ) (h : st1.decisions = st2.decisions) :
    missingCount st1 r = missingCount st2 r := by
  unfold missingCount
  rw [h]

/-- C2 (confirmed): both finalisation variants have exactly-once effect per
(session, round): a repeated invocation — in particular one arriving after
cost/total_cost is already populated — leaves every Decision row, every
participant balance, and the RoundPhase rows unchanged (both calls are
idempotent as state transformers, even when the second ALT call carries a
fresh timestamp). -/
theorem tryFinalize_exactly_once (st : GState) (r : ℕ) (now now2 : ℚ)
    (hwf : DecisionsOwned st r) :
    finalize_round (finalize_round st r) r = finalize_round st r ∧
    finalize_round_atomic (finalize_round_atomic st r now) r now2 =
      finalize_round_atomic st r now := by
  constructor
  · by_cases h1 : decidedCount st r < st.groupSize
    · have e1 : finalize_round st r = st := by
        unfold finalize_round
        rw [if_pos h1]
      rw [e1, e1]
    · by_cases h2 : missingCount st r = 0
      · have e1 := finalize_round_stable st r h2
        rw [e1, e1]
      · rw [finalize_round_gated st r h1 h2]
        exact finalize_round_stable _ r (missingCount_finalizeWrites st r hwf)
  · by_cases h1 : decidedCount st r < st.groupSize
    · have e2 : finalize_round_atomic st r now = st := by
        unfold finalize_round_atomic
        rw [if_pos h1]
      rw [e2]
      unfold finalize_round_atomic
      rw [if_pos h1]
    · by_cases h2 : missingCount st r = 0
      · have e2 := finalize_round_atomic_stable st r now h2
        rw [e2]
        exact finalize_round_atomic_stable st r _ h2
      · apply finalize_round_atomic_stable
        have hd : (finalize_round_atomic st r now).decisions = (finalizeWrites st r).decisions := by
          rw [finalize_round_atomic_decisions, finalize_round_gated st r h1 h2]
        rw [missingCount_congr r hd]
        exact missingCount_finalizeWrites st r hwf

/-- C2 witness: repeating both finalisations of round 1 on the fully decided
two-seat session `exDecided` (the ALT repeat at a later timestamp) changes
nothing. -/
theorem tryFinalize_exactly_once_witness :
    finalize_round (finalize_round exDecided 1) 1 = finalize_round exDecided 1 ∧
    finalize_round_atomic (finalize_round_atomic exDecided 1 0) 1 5 =
      finalize_round_atomic exDecided 1 0 :=
  tryFinalize_exactly_once exDecided 1 0 5 (by unfold DecisionsOwned; decide)

/-! ## RoundCoordinator: round advance -/

theorem payParticipant_currentRound (st : GState) (r : ℕ) (p : Participant) :
    (payParticipant st r p).currentRound = p.currentRound := by
  unfold payParticipant
  split <;> rfl

theorem payParticipant_pid (st : GState) (r : ℕ) (p : Participant) :
    (payParticipant st r p).pid = p.pid := by
  unfold payParticipant
  split <;> rfl

theorem finalizeWrites_currentRound_map (st : GState) (r : ℕ) :
    (finalizeWrites st r).participants.map (fun q => q.currentRound) =
      st.participants.map (fun q => q.currentRound) := by
  unfold finalizeWrites
  dsimp only
  rw [List.map_map]
  apply List.map_congr_left
  intro p hp
  simp [Function.comp, payParticipant_currentRound]

/-- C3 counterexample: in `exDecided` (a two-seat session with both round-1
decisions in) the ready count is 0, below the group size of 2, yet the app_ALT
finalisation advances participant 1's `currentRound` from 1 to 2 — the claim
that no operation advances `currentRound` before the ready quorum is reached
fails on the app_ALT variant. -/
theorem advance_without_quorum_counterexample :
    readyCount exDecided = 0 ∧
    exDecided.groupSize = 2 ∧
    (findParticipant exDecided 1).map (fun p => p.currentRound) = some 1 ∧
    (findParticipant (finalize_round_atomic exDecided 1 0) 1).map (fun p => p.currentRound) =
      some 2 :=
  ⟨rfl, rfl, rfl, rfl⟩

/-- C3 (amended): `currentRound` changes only through three writers, each
characterised here per operation: decision submission and app.py finalisation
never touch it; app.py's `confirm_ready` either leaves every round unchanged
or advances every participant by one, and then only with the ready count (the
caller's fresh flag included) at groupSize; app.py's lobby group-fill step
(re)sets every round to 1 when the group fills while the session is still a
lobby; and app_ALT's finalisation either leaves rounds unchanged or advances
exactly the participants sitting at the finalised round by one, gated on the
decided-count having reached groupSize — not on the ready quorum. -/
theorem currentRound_changes_characterized :
    (∀ st pid c, ((choose st pid c).1).participants.map (fun q => q.currentRound) =
        st.participants.map (fun q => q.currentRound)) ∧
    (∀ st pid c, ((choose_alt st pid c).1).participants.map (fun q => q.currentRound) =
        st.participants.map (fun q => q.currentRound)) ∧
    (∀ st r, (finalize_round st r).participants.map (fun q => q.currentRound) =
        st.participants.map (fun q => q.currentRound)) ∧
    (∀ st pid, (confirm_ready st pid).participants.map (fun q => q.currentRound) =
        st.participants.map (fun q => q.currentRound) ∨
      ((confirm_ready st pid).participants.map (fun q => q.currentRound) =
        st.participants.map (fun q => q.currentRound + 1) ∧
       st.groupSize ≤ readyCount (setReady st pid))) ∧
    (∀ st, (lobby_start st).participants.map (fun q => q.currentRound) =
        st.participants.map (fun q => q.currentRound) ∨
      ((lobby_start st).participants.map (fun q => q.currentRound) =
        st.participants.map (fun _ => 1) ∧
       st.status = SessionStatus.lobby ∧ st.groupSize ≤ joinedCount st)) ∧
    (∀ st r now, (finalize_round_atomic st r now).participants.map (fun q => q.currentRound) =
        st.participants.map (fun q => q.currentRound) ∨
      ((finalize_round_atomic st r now).participants.map (fun q => q.currentRound) =
        st.participants.map
          (fun q => if q.currentRound = r then q.currentRound + 1 else q.currentRound) ∧
       st.groupSize ≤ decidedCount st r)) := by
  refine ⟨?_, ?_, ?_, ?_, ?_, ?_⟩
  · intro st pid c
    unfold choose
    cases h : findParticipant st pid with
    | none => rfl
    | some p =>
      dsimp only
      split <;> rfl
  · intro st pid c
    unfold choose_alt
    cases h : findParticipant st pid with
    | none => rfl
    | some p =>
      dsimp only
      split <;> rfl
  · intro st r
    unfold finalize_round
    split_ifs with h1 h2
    · rfl
    · rfl
    · exact finalizeWrites_currentRound_map st r
  · intro st pid
    unfold confirm_ready
    cases h : findParticipant st pid with
    | none =>
      left
      rfl
    | some p =>
      dsimp only [setReady]
      split_ifs with hq hr
      · left
        simp only [List.map_map]
        apply List.map_congr_left
        intro q hq2
        simp only [Function.comp]
        split <;> rfl
      · right
        refine ⟨?_, hq⟩
        simp only [List.map_map]
        apply List.map_congr_left
        intro q hq2
        simp only [Function.comp]
        split <;> rfl
      · left
        simp only [List.map_map]
        apply List.map_congr_left
        intro q hq2
        simp only [Function.comp]
        split <;> rfl
  · intro st
    unfold lobby_start
    split_ifs with h
    · right
      refine ⟨?_, h.2, h.1⟩
      rw [List.map_map]
      apply List.map_congr_left
      intro q hq
      rfl
    · left
      rfl
  · intro st r now
    unfold finalize_round_atomic
    split_ifs with h1 h2
    · left
      rfl
    · left
      rfl
    · right
      refine ⟨?_, by omega⟩
      dsimp only
      unfold finalizeWrites
      dsimp only
      rw [List.map_map, List.map_map]
      apply List.map_congr_left
      intro q hq
      simp only [Function.comp]
      by_cases hc : q.currentRound = r <;>
        simp [hc, payParticipant_currentRound]


theorem choose_participants (st : GState) (pid : ℕ) (c : Choice) :
    ((choose st pid c).1).participants = st.participants := by
  unfold choose
  cases h : findParticipant st pid with
  | none => rfl
  | some p =>
    dsimp only
    split <;> rfl

theorem choose_rounds (st : GState) (pid : ℕ) (c : Choice) :
    ((choose st pid c).1).rounds = st.rounds := by
  unfold choose
  cases h : findParticipant st pid with
  | none => rfl
  | some p =>
    dsimp only
    split <;> rfl

theorem syncRound_appStep (st : GState) (op : AppOp) (h : SyncRound st) :
    SyncRound (appStep st op) := by
  obtain ⟨c, hc1, hc2, hall⟩ := h
  cases op with
  | chooseOp pid ch =>
    refine ⟨c, hc1, ?_, ?_⟩
    · rw [appStep, choose_rounds]
      exact hc2
    · intro p hp
      rw [appStep, choose_participants] at hp
      exact hall p hp
  | lobbyStartOp =>
    rw [appStep]
    unfold lobby_start
    split_ifs with hg
    · exact ⟨1, le_refl 1, le_trans hc1 hc2, by
        intro p hp
        dsimp only at hp
        obtain ⟨q, hq, rfl⟩ := List.mem_map.1 hp
        rfl⟩
    · exact ⟨c, hc1, hc2, hall⟩
  | finalizeOp r =>
    rw [appStep]
    unfold finalize_round
    split_ifs with h1 h2
    · exact ⟨c, hc1, hc2, hall⟩
    · exact ⟨c, hc1, hc2, hall⟩
    · refine ⟨c, hc1, hc2, ?_⟩
      intro p hp
      unfold finalizeWrites at hp
      dsimp only at hp
      obtain ⟨q, hq, rfl⟩ := List.mem_map.1 hp
      rw [payParticipant_currentRound]
      exact hall q hq
  | confirmReadyOp pid =>
    rw [appStep]
    unfold confirm_ready
    cases hf : findParticipant st pid with
    | none => exact ⟨c, hc1, hc2, hall⟩
    | some p =>
      have hpmem : p ∈ st.participants := List.mem_of_find?_eq_some hf
      have hpc : p.currentRound = c := hall p hpmem
      have hcr : effRound p.currentRound = c := by
        rw [hpc]
        unfold effRound
        rw [if_neg (by omega)]
      dsimp only [setReady]
      split_ifs with hq hr
      · refine ⟨c, hc1, hc2, ?_⟩
        intro q hq2
        dsimp only at hq2
        rw [List.map_map] at hq2
        obtain ⟨q0, hq0, rfl⟩ := List.mem_map.1 hq2
        simp only [Function.comp]
        by_cases hx : q0.pid = pid <;> simp [hx, hall q0 hq0]
      · have hr2 : ¬ st.rounds ≤ c := by
          have h3 := hr
          rw [hcr] at h3
          exact h3
        refine ⟨c + 1, by omega, ?_, ?_⟩
        · show c + 1 ≤ st.rounds
          omega
        intro q hq2
        dsimp only at hq2
        rw [List.map_map] at hq2
        obtain ⟨q0, hq0, rfl⟩ := List.mem_map.1 hq2
        simp only [Function.comp]
        by_cases hx : q0.pid = pid <;> simp [hx, hall q0 hq0]
      · refine ⟨c, hc1, hc2, ?_⟩
        intro q hq2
        dsimp only at hq2
        obtain ⟨q0, hq0, rfl⟩ := List.mem_map.1 hq2
        by_cases hx : q0.pid = pid <;> simp [hx, hall q0 hq0]


/-- C10 (confirmed): in the app.py variant a participant's `currentRound`
never exceeds `session.rounds` (for any session started with `rounds ≥ 1` and
all participants on round 1, under every interleaving of the modelled
operations); and when the ready quorum is reached while the caller's round is
at (or past) the final round, `confirm_ready` marks the session `done` and
clears every `readyForNext` flag without incrementing any `currentRound`. -/
theorem currentRound_never_exceeds_rounds :
    (∀ init st, 1 ≤ init.rounds → (∀ p ∈ init.participants, p.currentRound = 1) →
      Reachable init st → ∀ p ∈ st.participants, p.currentRound ≤ st.rounds) ∧
    (∀ st pid p, findParticipant st pid = some p →
      st.rounds ≤ effRound p.currentRound →
      st.groupSize ≤ readyCount (setReady st pid) →
      (confirm_ready st pid).status = SessionStatus.done ∧
      (confirm_ready st pid).participants.map (fun q => q.currentRound) =
        st.participants.map (fun q => q.currentRound) ∧
      ∀ q ∈ (confirm_ready st pid).participants, q.readyForNext = false) := by
  constructor
  · intro init st h1 h2 hreach
    have hs : SyncRound st := by
      induction hreach with
      | refl => exact ⟨1, le_refl 1, h1, h2⟩
      | step op hr ih => exact syncRound_appStep _ op ih
    obtain ⟨c, hc1, hc2, hall⟩ := hs
    intro p hp
    rw [hall p hp]
    exact hc2
  · intro st pid p hf hrounds hquorum
    unfold confirm_ready
    rw [hf]
    dsimp only
    split_ifs with h1 h2
    · refine ⟨rfl, ?_, ?_⟩
      · dsimp only [setReady]
        simp only [List.map_map]
        apply List.map_congr_left
        intro q hq
        simp only [Function.comp]
        split <;> rfl
      · intro q hq
        dsimp only [setReady] at hq
        rw [List.map_map] at hq
        obtain ⟨q0, hq0, rfl⟩ := List.mem_map.1 hq
        rfl
    · exact absurd hrounds h2
    · exact absurd hquorum h1

/-- C10 witness: one `confirm_ready` step from `exStart` keeps participant 1
within the round bound, and `confirm_ready` on `exAppReady` (final round, one
peer already ready) flips the session to done. -/
theorem currentRound_never_exceeds_rounds_witness :
    (⟨1, true, 1, 500, true, 1⟩ : Participant).currentRound ≤
      (appStep exStart (AppOp.confirmReadyOp 1)).rounds ∧
    (confirm_ready exAppReady 1).status = SessionStatus.done :=
  ⟨currentRound_never_exceeds_rounds.1 exStart (appStep exStart (AppOp.confirmReadyOp 1))
      (by decide) (by decide) (Reachable.step (AppOp.confirmReadyOp 1) Reachable.refl)
      ⟨1, true, 1, 500, true, 1⟩ (by decide),
   (currentRound_never_exceeds_rounds.2 exAppReady 1 ⟨1, true, 1, 496, false, 1⟩ rfl
      (by decide) (by decide)).1⟩


/-! ## Balance semantics -/

/-- C5 counterexample: after the two finalised rounds of the `exFinal` run
(both participants choose A in both rounds, cost 4, payout 496 each round)
participant 1's balance is 496 — the payout of the most recent round — while
the sum of its recorded payouts over finalised rounds 1..2 is 992, so the
balance does not accumulate payouts. -/
theorem balance_not_accumulated_counterexample :
    (findParticipant exFinal 1).map (fun p => p.balance) = some 496 ∧
    payoutSum exFinal 1 = 992 ∧
    ((496 : ℚ) ≠ 992) := by
  refine ⟨?_, ?_, by norm_num⟩
  · norm_num [exFinal, exDecided2, exRound2, exDecided, exStart, exP1, exP2, choose_alt,
      finalize_round_atomic, finalizeWrites, finalizeDecisionRow, finalizePayoutFor,
      payParticipant, decisionCost, findParticipant, findDecision, effPtype, effBasis,
      effRound, decidedCount, missingCount, totalAJoined, a_cost_for, watchWindowSec,
      List.find?, List.filter]
  · norm_num [payoutSum, exFinal, exDecided2, exRound2, exDecided, exStart, exP1, exP2,
      choose_alt, finalize_round_atomic, finalizeWrites, finalizeDecisionRow,
      finalizePayoutFor, payParticipant, decisionCost, findParticipant, findDecision,
      effPtype, effBasis, effRound, decidedCount, missingCount, totalAJoined, a_cost_for,
      watchWindowSec, List.find?, List.filter]


theorem finalizeWrites_balance_eq_payout (st : GState) (r : ℕ)
    (hu : UniqueDecisions st) (hup : UniqueParticipants st) (hclean : RoundUncosted st r) :
    ∀ p2 ∈ (finalizeWrites st r).participants, ∀ d2 ∈ (finalizeWrites st r).decisions,
      d2.pid = p2.pid → d2.roundNumber = r → some p2.balance = d2.payout := by
  intro p2 hp2 d2 hd2 hpid hrd
  unfold finalizeWrites at hp2 hd2
  dsimp only at hp2 hd2
  obtain ⟨p, hp, rfl⟩ := List.mem_map.1 hp2
  obtain ⟨d, hd, rfl⟩ := List.mem_map.1 hd2
  have hdr : d.roundNumber = r := by
    rw [← finalizeDecisionRow_roundNumber st r d]
    exact hrd
  have hdp : d.pid = p.pid := by
    rw [← finalizeDecisionRow_pid st r d, ← payParticipant_pid st r p]
    exact hpid
  have hnone : d.totalCost = none := hclean d hd hdr
  have hfd : findDecision st p.pid r = some d := by
    have hsome : (findDecision st p.pid r).isSome = true := by
      unfold findDecision
      rw [List.find?_isSome]
      exact ⟨d, hd, by simp [hdp, hdr]⟩
    obtain ⟨d1, hd1⟩ := Option.isSome_iff_exists.1 hsome
    have hd1mem : d1 ∈ st.decisions := List.mem_of_find?_eq_some hd1
    have hd1pred := List.find?_some hd1
    simp only [Bool.and_eq_true, decide_eq_true_eq] at hd1pred
    have : d1 = d := hu d1 hd1mem d hd (by omega) (by omega)
    rw [hd1, this]
  have hfp : findParticipant st d.pid = some p := by
    have hsome : (findParticipant st d.pid).isSome = true := by
      unfold findParticipant
      rw [List.find?_isSome]
      exact ⟨p, hp, by simp [hdp]⟩
    obtain ⟨p1, hp1⟩ := Option.isSome_iff_exists.1 hsome
    have hp1mem : p1 ∈ st.participants := List.mem_of_find?_eq_some hp1
    have hp1pred := List.find?_some hp1
    simp only [decide_eq_true_eq] at hp1pred
    have : p1 = p := hup p1 hp1mem p hp (by omega)
    rw [hp1, this]
  unfold payParticipant
  rw [hfd]
  unfold finalizeDecisionRow
  rw [if_pos hdr, hfp]
  dsimp only
  rw [if_pos hnone]
  rfl


/-- C5 (amended): finalisation sets, rather than accumulates, balances: in the
state produced by either finalisation variant (from a state whose round-`r`
decisions are uncosted, under the database uniqueness constraints, with the
decided-count gate passed), every participant owning a round-`r` decision has
balance equal to exactly that decision's freshly recorded payout — the payout
of the most recent finalised round, not the sum over rounds 1..r. -/
theorem balance_equals_latest_round_payout (st : GState) (r : ℕ) (now : ℚ)
    (hu : UniqueDecisions st) (hup : UniqueParticipants st) (hclean : RoundUncosted st r)
    (hdec : ¬ decidedCount st r < st.groupSize) (hmiss : ¬ missingCount st r = 0) :
    (∀ p2 ∈ (finalize_round st r).participants, ∀ d2 ∈ (finalize_round st r).decisions,
      d2.pid = p2.pid → d2.roundNumber = r → some p2.balance = d2.payout) ∧
    (∀ p3 ∈ (finalize_round_atomic st r now).participants,
      ∀ d3 ∈ (finalize_round_atomic st r now).decisions,
      d3.pid = p3.pid → d3.roundNumber = r → some p3.balance = d3.payout) := by
  constructor
  · rw [finalize_round_gated st r hdec hmiss]
    exact finalizeWrites_balance_eq_payout st r hu hup hclean
  · intro p3 hp3 d3 hd3 hpid hrd
    unfold finalize_round_atomic at hp3 hd3
    rw [if_neg hdec, if_neg hmiss] at hp3 hd3
    dsimp only at hp3 hd3
    obtain ⟨p2, hp2, rfl⟩ := List.mem_map.1 hp3
    by_cases hc : p2.currentRound = r
    · rw [if_pos hc] at hpid ⊢
      exact finalizeWrites_balance_eq_payout st r hu hup hclean p2 hp2 d3 hd3 hpid hrd
    · rw [if_neg hc] at hpid ⊢
      exact finalizeWrites_balance_eq_payout st r hu hup hclean p2 hp2 d3 hd3 hpid hrd

/-- C5 witness: participant 1 of `exDecided` after the round-1 writes carries
balance equal to its decision's payout. -/
theorem balance_equals_latest_round_payout_witness :
    some (payParticipant exDecided 1 exP1).balance =
      (finalizeDecisionRow exDecided 1 ⟨1, 1, Choice.A, none, none, none⟩).payout :=
  (balance_equals_latest_round_payout exDecided 1 0
      (by unfold UniqueDecisions; decide)
      (by unfold UniqueParticipants; decide)
      (by unfold RoundUncosted; decide)
      (by decide) (by decide)).1
    (payParticipant exDecided 1 exP1)
    (by
      rw [finalize_round_gated exDecided 1 (by decide) (by decide)]
      exact List.mem_map_of_mem _ (by decide))
    (finalizeDecisionRow exDecided 1 ⟨1, 1, Choice.A, none, none, none⟩)
    (by
      rw [finalize_round_gated exDecided 1 (by decide) (by decide)]
      exact List.mem_map_of_mem _ (by decide))
    rfl rfl


theorem choose_alt_participants (st : GState) (pid : ℕ) (c : Choice) :
    ((choose_alt st pid c).1).participants = st.participants := by
  unfold choose_alt
  cases h : findParticipant st pid with
  | none => rfl
  | some p =>
    dsimp only
    split <;> rfl

theorem payParticipant_balance_cases (st : GState) (r : ℕ) (p : Participant) :
    (payParticipant st r p).balance = p.balance ∨
      ∃ x : ℚ, (payParticipant st r p).balance = max x 0 := by
  unfold payParticipant
  split
  · left
    rfl
  · right
    exact ⟨_, rfl⟩

/-! ## Payout invariant -/

/-- C7 counterexample: with `starting_balance = 0` the code computes payouts
from the fallback basis 500 (`float(starting_balance or 500)`): the sole A
decision gets cost 4 and payout 496, while the claim's
`max(startingBalance - cost, 0)` is 0. -/
theorem payout_basis_zero_counterexample :
    exZeroBasis.startingBalance = 0 ∧
    (finalize_round exZeroBasis 1).decisions.map (fun d => d.totalCost) = [some 4] ∧
    (finalize_round exZeroBasis 1).decisions.map (fun d => d.payout) = [some 496] ∧
    max (exZeroBasis.startingBalance - a_cost_for 1) 0 = 0 ∧
    ((496 : ℚ) ≠ 0) := by
  refine ⟨rfl, ?_, ?_, by norm_num [exZeroBasis, a_cost_for], by norm_num⟩ <;>
    norm_num [exZeroBasis, finalize_round, finalizeWrites, finalizeDecisionRow,
      finalizePayoutFor, payParticipant, decisionCost, findParticipant, findDecision,
      effPtype, effBasis, decidedCount, missingCount, totalAJoined, a_cost_for,
      List.find?, List.filter]

/-- C7 (amended): every decision row written by finalisation carries
`payout = max(basis - cost, 0) ≥ 0` where the basis is the session's
startingBalance with 500 substituted when it is zero/NULL; an A-chooser's cost
is `costOfA(ptype)` with `othersA = totalA - 1`, and a B-chooser's cost is
`costOfB(ptype, totalA, groupSize)` with `othersA = totalA`; and every modelled
operation of both variants preserves nonnegativity of all balances. -/
theorem finalize_payout_invariant :
    (∀ st r d p, d ∈ st.decisions → d.roundNumber = r →
      findParticipant st d.pid = some p → d.totalCost = none →
      ∃ c : ℚ,
        (finalizeDecisionRow st r d).totalCost = some c ∧
        (finalizeDecisionRow st r d).payout = some (max (effBasis st.startingBalance - c) 0) ∧
        0 ≤ (finalizeDecisionRow st r d).payout.getD 0 ∧
        (d.choice = Choice.A →
          c = a_cost_for (effPtype p.ptype) ∧
          (finalizeDecisionRow st r d).othersA = some ((totalAJoined st r : ℤ) - 1) ∧
          1 ≤ totalAJoined st r) ∧
        (d.choice = Choice.B →
          c = b_cost_adapt (effPtype p.ptype) (totalAJoined st r) st.groupSize ∧
          (finalizeDecisionRow st r d).othersA = some ((totalAJoined st r : ℤ)))) ∧
    (∀ st op, (∀ p ∈ st.participants, 0 ≤ p.balance) →
      ∀ p ∈ (appStep st op).participants, 0 ≤ p.balance) ∧
    (∀ st pid ch, (∀ p ∈ st.participants, 0 ≤ p.balance) →
      ∀ p ∈ ((choose_alt st pid ch).1).participants, 0 ≤ p.balance) ∧
    (∀ st r now, (∀ p ∈ st.participants, 0 ≤ p.balance) →
      ∀ p ∈ (finalize_round_atomic st r now).participants, 0 ≤ p.balance) := by
  refine ⟨?_, ?_, ?_, ?_⟩
  · intro st r d p hd hdr hfp hnone
    unfold finalizeDecisionRow
    rw [if_pos hdr, hfp]
    dsimp only
    rw [if_pos hnone]
    cases hch : d.choice with
    | A =>
      have h1A : 1 ≤ totalAJoined st r := by
        apply List.length_pos_of_mem
        apply List.mem_filter.2
        refine ⟨hd, ?_⟩
        simp [hdr, hch, hfp]
      refine ⟨a_cost_for (effPtype p.ptype), ?_, ?_, ?_, ?_, ?_⟩
      · simp [decisionCost, hch]
      · simp [decisionCost, hch]
      · simp only [Option.getD_some]
        exact le_max_right _ _
      · intro _
        refine ⟨rfl, ?_, h1A⟩
        simp only [decisionCost, hch]
        have : (0 : ℤ) ⊔ ((totalAJoined st r : ℤ) - 1) = (totalAJoined st r : ℤ) - 1 :=
          max_eq_right (by omega)
        simp [this]
      · intro hB
        exact absurd hB (by decide)
    | B =>
      refine ⟨b_cost_adapt (effPtype p.ptype) (totalAJoined st r) st.groupSize, ?_, ?_, ?_, ?_, ?_⟩
      · simp [decisionCost, hch]
      · simp [decisionCost, hch]
      · simp only [Option.getD_some]
        exact le_max_right _ _
      · intro hA
        exact absurd hA (by decide)
      · intro _
        exact ⟨rfl, by simp [decisionCost, hch]⟩
  · intro st op hb
    cases op with
    | chooseOp pid ch =>
      intro p hp
      rw [appStep, choose_participants] at hp
      exact hb p hp
    | lobbyStartOp =>
      intro p hp
      rw [appStep] at hp
      unfold lobby_start at hp
      split_ifs at hp with hg
      · dsimp only at hp
        obtain ⟨q, hq, rfl⟩ := List.mem_map.1 hp
        exact hb q hq
      · exact hb p hp
    | finalizeOp r =>
      intro p hp
      rw [appStep] at hp
      unfold finalize_round at hp
      split_ifs at hp with h1 h2
      · exact hb p hp
      · exact hb p hp
      · unfold finalizeWrites at hp
        dsimp only at hp
        obtain ⟨q, hq, rfl⟩ := List.mem_map.1 hp
        rcases payParticipant_balance_cases st r q with h | ⟨x, h⟩
        · rw [h]
          exact hb q hq
        · rw [h]
          exact le_max_right x 0
    | confirmReadyOp pid =>
      intro p hp
      rw [appStep] at hp
      unfold confirm_ready at hp
      cases hf : findParticipant st pid with
      | none =>
        rw [hf] at hp
        exact hb p hp
      | some q0 =>
        rw [hf] at hp
        dsimp only [setReady] at hp
        split_ifs at hp with hq hr
        · rw [List.map_map] at hp
          obtain ⟨q, hq2, rfl⟩ := List.mem_map.1 hp
          simp only [Function.comp]
          by_cases hx : q.pid = pid <;> simp [hx] <;> exact hb q hq2
        · rw [List.map_map] at hp
          obtain ⟨q, hq2, rfl⟩ := List.mem_map.1 hp
          simp only [Function.comp]
          by_cases hx : q.pid = pid <;> simp [hx] <;> exact hb q hq2
        · obtain ⟨q, hq2, rfl⟩ := List.mem_map.1 hp
          by_cases hx : q.pid = pid <;> simp [hx] <;> exact hb q hq2
  · intro st pid ch hb p hp
    rw [choose_alt_participants] at hp
    exact hb p hp
  · intro st r now hb p hp
    unfold finalize_round_atomic at hp
    split_ifs at hp with h1 h2
    · exact hb p hp
    · exact hb p hp
    · dsimp only at hp
      unfold finalizeWrites at hp
      dsimp only at hp
      rw [List.map_map] at hp
      obtain ⟨q, hq, rfl⟩ := List.mem_map.1 hp
      simp only [Function.comp]
      have hcases := payParticipant_balance_cases st r q
      split
      · dsimp only
        rcases hcases with h | ⟨x, h⟩
        · rw [h]
          exact hb q hq
        · rw [h]
          exact le_max_right x 0
      · rcases hcases with h | ⟨x, h⟩
        · rw [h]
          exact hb q hq
        · rw [h]
          exact le_max_right x 0


/-- C7 witness: the round-1 finalisation write for participant 1 of
`exDecided`, and balance nonnegativity across a `confirm_ready` step from
`exStart`. -/
theorem finalize_payout_invariant_witness :
    (∃ c : ℚ,
      (finalizeDecisionRow exDecided 1 ⟨1, 1, Choice.A, none, none, none⟩).totalCost = some c ∧
      (finalizeDecisionRow exDecided 1 ⟨1, 1, Choice.A, none, none, none⟩).payout =
        some (max (effBasis exDecided.startingBalance - c) 0) ∧
      0 ≤ (finalizeDecisionRow exDecided 1 ⟨1, 1, Choice.A, none, none, none⟩).payout.getD 0 ∧
      ((⟨1, 1, Choice.A, none, none, none⟩ : Decision).choice = Choice.A →
        c = a_cost_for (effPtype exP1.ptype) ∧
        (finalizeDecisionRow exDecided 1 ⟨1, 1, Choice.A, none, none, none⟩).othersA =
          some ((totalAJoined exDecided 1 : ℤ) - 1) ∧
        1 ≤ totalAJoined exDecided 1) ∧
      ((⟨1, 1, Choice.A, none, none, none⟩ : Decision).choice = Choice.B →
        c = b_cost_adapt (effPtype exP1.ptype) (totalAJoined exDecided 1) exDecided.groupSize ∧
        (finalizeDecisionRow exDecided 1 ⟨1, 1, Choice.A, none, none, none⟩).othersA =
          some ((totalAJoined exDecided 1 : ℤ)))) ∧
    0 ≤ (⟨1, true, 1, 500, true, 1⟩ : Participant).balance :=
  ⟨finalize_payout_invariant.1 exDecided 1 ⟨1, 1, Choice.A, none, none, none⟩ exP1
      (by decide) rfl rfl rfl,
   finalize_payout_invariant.2.1 exStart (AppOp.confirmReadyOp 1) (by decide)
      ⟨1, true, 1, 500, true, 1⟩ (by decide)⟩

end VaccGame
